import Mathlib

/-!
Verification of `fix_auth_bug11.py`, a maintenance script that applies three
text substitutions to two source files:

* Fix #11.1: `re.sub` with pattern
  `(// Verify password.*?if \(!isValidPassword\) \{.*?\}\s*})\s*(// Generate JWT token)`
  (DOTALL) on `server/routes.ts`, inserting a session-assignment line between
  the two captured anchors.
* Fix #11.2: `str.replace` of the literal `req.session?.userId || req.user?.id`
  by `req.session?.userId` on `server/routes.ts`.
* Fix #11.3/4: `re.sub` with pattern
  `(export const apiRequest = async \(url: string, options: RequestInit = \{\}\) => \{\s*)// Build headers.*?\}\);`
  (DOTALL) on `client/src/lib/api.ts`, rewriting the matched span to
  group 1 followed by a fixed replacement block.

The script is embedded shallowly: file contents are `List Char`, the two
concrete regular expressions are compiled by hand into backtracking matchers
(lazy `.*?` is minimal-first with full backtracking, greedy `\s*` is
deterministic here because in every position it is followed by a
non-whitespace literal character), `re.sub` replaces the leftmost match and
continues after its end, and `str.replace` replaces non-overlapping
occurrences scanning left to right.  The filesystem is a map from paths to
optional contents, and the whole script is a function from filesystem to
optional (filesystem, stdout lines).
-/

/-- Characters matched by Python's `\s` for `str` patterns (`re.UNICODE`):
the exact set of codepoints `c` with `re.match(r'\s', chr(c))`. -/
def isPySpace (c : Char) : Bool :=
  let n := c.toNat
  n == 0x9 || n == 0xa || n == 0xb || n == 0xc || n == 0xd ||
  n == 0x1c || n == 0x1d || n == 0x1e || n == 0x1f || n == 0x20 ||
  n == 0x85 || n == 0xa0 || n == 0x1680 ||
  (0x2000 ≤ n && n ≤ 0x200a) || n == 0x2028 || n == 0x2029 ||
  n == 0x202f || n == 0x205f || n == 0x3000

/-! ### Literal fragments of the three patterns and replacements -/

/-- First literal of pattern #11.1: `// Verify password`. -/
def lit1a : List Char := "// Verify password".data

/-- Second literal of pattern #11.1: `if (!isValidPassword) {`. -/
def lit1b : List Char := "if (!isValidPassword) \x7b".data

/-- Final literal of pattern #11.1 (group 2): `// Generate JWT token`. -/
def lit1c : List Char := "// Generate JWT token".data

/-- The text the replacement of #11.1 puts between `\1` and `\2`. -/
def ins1 : List Char :=
  "\n\n    // Set session userId for session-based auth\n    req.session.userId = user.id;\n\n    ".data

/-- The literal `str.replace` target of Fix #11.2. -/
def origE : List Char := "req.session?.userId || req.user?.id".data

/-- The literal `str.replace` replacement of Fix #11.2. -/
def replE : List Char := "req.session?.userId".data

/-- Group-1 literal of pattern #11.3: the `apiRequest` signature. -/
def lit3a : List Char :=
  "export const apiRequest = async (url: string, options: RequestInit = \x7b\x7d) => \x7b".data

/-- Literal following group 1 in pattern #11.3: `// Build headers`. -/
def lit3b : List Char := "// Build headers".data

/-- Closing literal of pattern #11.3: `});`. -/
def lit3c : List Char := "\x7d);".data

/-- The fixed text the replacement of #11.3 appends after `\1`. -/
def block3 : List Char :=
  "// Build headers with session credentials\n  const headers: Record<string, string> = \x7b\n    \x27Content-Type\x27: \x27application/json\x27,\n    ...options.headers as Record<string, string>,\n  \x7d;\n\n  return fetch(url, \x7b\n    ...options,\n    headers,\n    credentials: \x27include\x27, // Send session cookies\n  \x7d);".data

/-! ### Python `str.replace` -/

/-- One fueled step of `str.replace`: at each position, if the pattern starts
here, emit the replacement and skip the pattern, otherwise copy one character.
This is Python's left-to-right non-overlapping replacement.  The fuel only
serves termination; `pyReplace` supplies enough for any nonempty pattern. -/
def replaceAllF (pat rep : List Char) : Nat → List Char → List Char
  | 0, s => s
  | _ + 1, [] => []
  | fuel + 1, c :: rest =>
    if pat.isPrefixOf (c :: rest) then
      rep ++ replaceAllF pat rep fuel (List.drop pat.length (c :: rest))
    else
      c :: replaceAllF pat rep fuel rest

/-- Python's `s.replace(pat, rep)` (for nonempty `pat`). -/
def pyReplace (pat rep s : List Char) : List Char :=
  replaceAllF pat rep s.length s

/-- Number of positions of `s` at which `pat` occurs as a substring. -/
def countOccs (pat : List Char) : List Char → Nat
  | [] => 0
  | c :: rest => (if pat.isPrefixOf (c :: rest) then 1 else 0) + countOccs pat rest

/-! ### Backtracking search -/

/-- Minimal-first search: find the shortest split `s = pre ++ suf` such that
`f suf` succeeds, trying `pre` of length 0, 1, 2, … in order.  This is both
the semantics of a lazy `.*?` under DOTALL (any character, minimal first,
with full backtracking into the continuation) and the leftmost-match scan of
`re.sub`. -/
def lazyFind (f : List Char → Option α) : List Char → Option (List Char × α)
  | [] =>
    match f [] with
    | some v => some ([], v)
    | none => none
  | c :: rest =>
    match f (c :: rest) with
    | some v => some ([], v)
    | none =>
      match lazyFind f rest with
      | some (pre, v) => some (c :: pre, v)
      | none => none

/-- Maximal whitespace run: split `s` into its longest `isPySpace` prefix and
the rest.  This is greedy `\s*`; in both patterns every `\s*` is followed by
a non-whitespace literal character, so backtracking out of it can never
succeed and the maximal run is the only candidate. -/
def takeWs : List Char → List Char × List Char
  | [] => ([], [])
  | c :: rest =>
    if isPySpace c then
      let p := takeWs rest
      (c :: p.1, p.2)
    else
      ([], c :: rest)

/-! ### The matcher for pattern #11.1

A matcher takes the input suffix and, when the pattern matches at its start,
returns the instantiated replacement text for the matched span together with
the input remaining after the span. -/

/-- Continuation of pattern #11.1 after the second `.*?`:
`\}\s*\}` closing group 1, then `\s*`, then group 2 `// Generate JWT token`.
Returns the `\s*` run inside group 1 and the input after the whole match. -/
def p1AfterB (q : List Char) : Option (List Char × List Char) :=
  match q with
  | c :: q1 =>
    if c == '\x7d' then
      let pw := takeWs q1
      match pw.2 with
      | d :: q3 =>
        if d == '\x7d' then
          let pv := takeWs q3
          if lit1c.isPrefixOf pv.2 then
            some (pw.1, List.drop lit1c.length pv.2)
          else none
        else none
      | [] => none
    else none
  | [] => none

/-- Continuation of pattern #11.1 after the first `.*?`: the literal
`if (!isValidPassword) {`, then the second `.*?` running into `p1AfterB`.
Returns (second lazy gap, `\s*` run, rest after match). -/
def p1AfterA (r : List Char) : Option (List Char × List Char × List Char) :=
  if lit1b.isPrefixOf r then
    match lazyFind p1AfterB (List.drop lit1b.length r) with
    | some (b, w1, rest) => some (b, w1, rest)
    | none => none
  else none

/-- The replacement template of Fix #11.1: `\1`, the inserted session
assignment, then `\2` (which is the fixed literal `// Generate JWT token`). -/
def rep1 (g1 : List Char) : List Char :=
  g1 ++ ins1 ++ lit1c

/-- Matcher for pattern #11.1 at the start of `s`: literal
`// Verify password`, first `.*?`, then `p1AfterA`.  On success returns the
instantiated replacement for the matched span and the rest of the input.
Group 1 spans from the start of the match to the second `}`; the `\s*`
between group 1 and group 2 is consumed but not re-emitted. -/
def matchP1 (s : List Char) : Option (List Char × List Char) :=
  if lit1a.isPrefixOf s then
    match lazyFind p1AfterA (List.drop lit1a.length s) with
    | some (a, b, w1, rest) =>
      some (rep1 (lit1a ++ a ++ lit1b ++ b ++ ('\x7d' :: w1) ++ ['\x7d']), rest)
    | none => none
  else none

/-! ### The matcher for pattern #11.3 -/

/-- Continuation of pattern #11.3 after `.*?`: the closing literal `});`. -/
def p3End (r : List Char) : Option (List Char) :=
  if lit3c.isPrefixOf r then some (List.drop lit3c.length r) else none

/-- Matcher for pattern #11.3 at the start of `s`: the `apiRequest`
signature literal, greedy `\s*` (group 1 is signature plus that run), the
literal `// Build headers`, a lazy `.*?`, and the closing `});`.  On success
returns the instantiated replacement `\1` + fixed block and the rest. -/
def matchP3 (s : List Char) : Option (List Char × List Char) :=
  if lit3a.isPrefixOf s then
    let pw := takeWs (List.drop lit3a.length s)
    if lit3b.isPrefixOf pw.2 then
      match lazyFind p3End (List.drop lit3b.length pw.2) with
      | some (_, rest) => some (lit3a ++ pw.1 ++ block3, rest)
      | none => none
    else none
  else none

/-! ### `re.sub` -/

/-- Fueled `re.sub` with no count bound: find the leftmost match, emit the
text before it and the instantiated replacement, and continue after the
match's end; stop when no match remains.  Both patterns contain mandatory
literals, so every match consumes at least one character and the fuel
supplied by `pyReSub` is never exhausted. -/
def reSubAllF (m : List Char → Option (List Char × List Char)) :
    Nat → List Char → List Char
  | 0, s => s
  | fuel + 1, s =>
    match lazyFind m s with
    | none => s
    | some (pre, rep, rest) => pre ++ rep ++ reSubAllF m fuel rest

/-- Python's `re.sub(pattern, replacement, s)` for a hand-compiled matcher. -/
def pyReSub (m : List Char → Option (List Char × List Char)) (s : List Char) :
    List Char :=
  reSubAllF m (s.length + 1) s

/-! ### The three steps and the script -/

/-- Fix #11.1 as a function on the contents of `server/routes.ts`. -/
def step41 (s : String) : String :=
  ⟨pyReSub matchP1 s.data⟩

/-- Fix #11.2 as a function on the contents of `server/routes.ts`. -/
def step42 (s : String) : String :=
  ⟨pyReplace origE replE s.data⟩

/-- Fix #11.3/4 as a function on the contents of `client/src/lib/api.ts`. -/
def step43 (s : String) : String :=
  ⟨pyReSub matchP3 s.data⟩

/-- Path of the server route file. -/
def routesPath : String := "server/routes.ts"

/-- Path of the client API helper file. -/
def apiPath : String := "client/src/lib/api.ts"

/-- The fixed sequence of lines the script prints, in order. -/
def scriptLines : List String :=
  [ "Applying Bug #11 fixes..."
  , "Fix #11.1: Adding req.session.userId to login endpoint..."
  , "✓ Fix #11.1 complete"
  , "Fix #11.2: Simplifying auth checks..."
  , "✓ Fix #11.2 complete"
  , "Fix #11.3 & #11.4: Updating apiRequest..."
  , "✓ Fix #11.3 & #11.4 complete"
  , "\n✅ All Bug #11 backend and frontend fixes applied!"
  , "Next: Remove localStorage JWT from Login component manually" ]

/-- The whole script as a state transformer on the filesystem (a map from
path to optional contents).  Each step re-reads its file, transforms it and
writes it back; a missing file is an unhandled error (`none`).  On success
it returns the final filesystem and the stdout lines. -/
def runScript (fs : String → Option String) :
    Option ((String → Option String) × List String) :=
  match fs routesPath with
  | none => none
  | some c0 =>
    let fs1 : String → Option String :=
      fun p => if p = routesPath then some (step41 c0) else fs p
    match fs1 routesPath with
    | none => none
    | some c1 =>
      let fs2 : String → Option String :=
        fun p => if p = routesPath then some (step42 c1) else fs1 p
      match fs2 apiPath with
      | none => none
      | some a0 =>
        let fs3 : String → Option String :=
          fun p => if p = apiPath then some (step43 a0) else fs2 p
        some (fs3, scriptLines)

/-! ### Spec-side formulations used by refinement claims -/

/-- Modelled from the spec: the list of successive non-overlapping leftmost
matches of a pattern ("the source library's default of replacing all
non-overlapping matches"), each as (text before the match, instantiated
replacement), together with the text after the last match. -/
def specMatchesF (m : List Char → Option (List Char × List Char)) :
    Nat → List Char → List (List Char × List Char) × List Char
  | 0, s => ([], s)
  | fuel + 1, s =>
    match lazyFind m s with
    | none => ([], s)
    | some (pre, rep, rest) =>
      let p := specMatchesF m fuel rest
      ((pre, rep) :: p.1, p.2)

/-- Modelled from the spec: replace all non-overlapping matches by splicing
the replacement of each match between the surrounding unmatched texts. -/
def specReplaceAll (m : List Char → Option (List Char × List Char))
    (s : List Char) : List Char :=
  let p := specMatchesF m (s.length + 1) s
  p.1.foldr (fun pr acc => pr.1 ++ pr.2 ++ acc) p.2

/-- Modelled from the spec: the alternative ("first match only") semantics
the spec contrasts with: replace only the leftmost match. -/
def specReplaceFirst (m : List Char → Option (List Char × List Char))
    (s : List Char) : List Char :=
  match lazyFind m s with
  | none => s
  | some (pre, rep, rest) => pre ++ rep ++ rest

set_option maxRecDepth 1000000

/-! ### Basic lemmas about `pyReplace` and `countOccs` -/

/-- Bridge between the executable `isPrefixOf` and the prefix relation. -/
theorem prefBool {l₁ l₂ : List Char} : l₁.isPrefixOf l₂ = true ↔ l₁ <+: l₂ :=
  List.isPrefixOf_iff_prefix

/-- The fuel argument of `replaceAllF` is irrelevant once it covers the
input's length (for a nonempty pattern). -/
theorem replaceAllF_congr (pat rep : List Char) (hpat : pat ≠ []) :
    ∀ f₁ f₂ s, s.length ≤ f₁ → s.length ≤ f₂ →
      replaceAllF pat rep f₁ s = replaceAllF pat rep f₂ s := by
  intro f₁
  induction f₁ with
  | zero =>
    intro f₂ s h₁ _
    have hs : s = [] := List.length_eq_zero.mp (Nat.le_zero.mp h₁)
    subst hs
    cases f₂ <;> rfl
  | succ f ih =>
    intro f₂ s h₁ h₂
    cases s with
    | nil => cases f₂ <;> rfl
    | cons c rest =>
      cases f₂ with
      | zero => simp at h₂
      | succ g =>
        have hplen : 1 ≤ pat.length := by
          cases pat with
          | nil => exact absurd rfl hpat
          | cons d t => simp
        simp only [List.length_cons] at h₁ h₂
        simp only [replaceAllF]
        by_cases hp : pat.isPrefixOf (c :: rest) = true
        · rw [if_pos hp, if_pos hp]
          refine congrArg (rep ++ ·) (ih g _ ?_ ?_) <;>
            simp only [List.length_drop, List.length_cons] <;> omega
        · rw [if_neg hp, if_neg hp]
          exact congrArg (c :: ·) (ih g rest (by omega) (by omega))

/-- `pyReplace` on the empty string. -/
theorem pyReplace_nil (pat rep : List Char) : pyReplace pat rep [] = [] := rfl

/-- `pyReplace` when the pattern occurs at the current position: emit the
replacement and continue after the pattern. -/
theorem pyReplace_pos (pat rep s : List Char) (hpat : pat ≠ []) (h : pat <+: s) :
    pyReplace pat rep s = rep ++ pyReplace pat rep (List.drop pat.length s) := by
  cases s with
  | nil =>
    have : pat = [] := List.eq_nil_of_prefix_nil h
    exact absurd this hpat
  | cons c rest =>
    have hb : pat.isPrefixOf (c :: rest) = true := prefBool.mpr h
    have hplen : 1 ≤ pat.length := by
      cases pat with
      | nil => exact absurd rfl hpat
      | cons d t => simp
    show replaceAllF pat rep (rest.length + 1) (c :: rest) = _
    simp only [replaceAllF, hb, if_true]
    congr 1
    apply replaceAllF_congr pat rep hpat
    · simp only [List.length_drop, List.length_cons]; omega
    · exact le_rfl

/-- `pyReplace` when the pattern does not occur at the current position:
copy one character. -/
theorem pyReplace_neg (pat rep : List Char) (c : Char) (rest : List Char)
    (h : ¬ pat <+: (c :: rest)) :
    pyReplace pat rep (c :: rest) = c :: pyReplace pat rep rest := by
  have hb : pat.isPrefixOf (c :: rest) = false :=
    Bool.eq_false_iff.mpr (fun hb' => h (prefBool.mp hb'))
  show replaceAllF pat rep (rest.length + 1) (c :: rest) = _
  simp only [replaceAllF, hb, if_false]
  rfl

/-- Unfolding `countOccs` at a position where the pattern occurs. -/
theorem countOccs_cons_pos (pat : List Char) (c : Char) (rest : List Char)
    (h : pat <+: (c :: rest)) :
    countOccs pat (c :: rest) = 1 + countOccs pat rest := by
  have hb : pat.isPrefixOf (c :: rest) = true := prefBool.mpr h
  simp [countOccs, hb]

/-- Unfolding `countOccs` at a position where the pattern does not occur. -/
theorem countOccs_cons_neg (pat : List Char) (c : Char) (rest : List Char)
    (h : ¬ pat <+: (c :: rest)) :
    countOccs pat (c :: rest) = countOccs pat rest := by
  have hb : pat.isPrefixOf (c :: rest) = false :=
    Bool.eq_false_iff.mpr (fun hb' => h (prefBool.mp hb'))
  simp [countOccs, hb]

/-- If the pattern occurs at no position inside `x` (including positions
whose occurrence would run on into `u`), occurrences of `x ++ u` are
exactly the occurrences of `u`. -/
theorem countOccs_append_none (pat : List Char) :
    ∀ (x u : List Char),
      (∀ x₂, x₂ <:+ x → x₂ ≠ [] → ¬ pat <+: (x₂ ++ u)) →
      countOccs pat (x ++ u) = countOccs pat u := by
  intro x
  induction x with
  | nil => intro u _; rfl
  | cons c x' ih =>
    intro u h
    have h0 : ¬ pat <+: ((c :: x') ++ u) :=
      h (c :: x') (List.suffix_refl _) (by simp)
    rw [List.cons_append] at h0 ⊢
    rw [countOccs_cons_neg pat c (x' ++ u) h0]
    exact ih u (fun x₂ hs hne => h x₂ (hs.trans (List.suffix_cons c x')) hne)

/-- Counting occurrences in `pat ++ u` for an unbordered pattern: one
occurrence at position zero, plus the occurrences of `u`.  `hov` states
that no proper nonempty suffix of `pat` is a prefix of `pat`. -/
theorem countOccs_self_append (pat u : List Char) (hpat : pat ≠ [])
    (hov : ∀ k, k < pat.length → 0 < k → ¬ (List.drop k pat) <+: pat) :
    countOccs pat (pat ++ u) = 1 + countOccs pat u := by
  cases pat with
  | nil => exact absurd rfl hpat
  | cons c t =>
    rw [List.cons_append,
      countOccs_cons_pos (c :: t) c (t ++ u)
        (by rw [← List.cons_append]; exact List.prefix_append _ _)]
    congr 1
    apply countOccs_append_none
    intro x₂ hs hne hpref
    have hsp : x₂ <:+ (c :: t) := hs.trans (List.suffix_cons c t)
    have hxlen : x₂.length ≤ t.length := hs.length_le
    have hxpos : 0 < x₂.length := by
      cases x₂ with
      | nil => exact absurd rfl hne
      | cons d y => simp
    have hxdrop : x₂ = List.drop ((c :: t).length - x₂.length) (c :: t) :=
      List.suffix_iff_eq_drop.mp hsp
    have hxp : x₂ <+: (c :: t) :=
      List.prefix_of_prefix_length_le (List.prefix_append x₂ u) hpref
        (by simp only [List.length_cons]; omega)
    refine hov ((c :: t).length - x₂.length) ?_ ?_ ?_
    · simp only [List.length_cons]; omega
    · simp only [List.length_cons]; omega
    · rw [← hxdrop]; exact hxp

/-! ### Concrete facts about the Fix #11.2 strings -/

/-- The `req.session` prefix shared by the #11.2 target and replacement. -/
def rs11 : List Char := "req.session".data

/-- The tail ` || req.user?.id` by which the #11.2 target extends its
replacement. -/
def tail16 : List Char := " || req.user?.id".data

/-- The #11.2 target splits as replacement ++ tail. -/
theorem orig_split : origE = replE ++ tail16 := by decide

/-- No proper nonempty suffix of the #11.2 target is one of its prefixes. -/
theorem orig_unbordered :
    ∀ k, k < origE.length → 0 < k → ¬ (List.drop k origE) <+: origE := by decide

/-- No proper nonempty suffix of the #11.2 replacement is one of its
prefixes. -/
theorem repl_unbordered :
    ∀ k, k < replE.length → 0 < k → ¬ (List.drop k replE) <+: replE := by decide

/-- No proper nonempty suffix of the replacement is a prefix of the
target. -/
theorem repl_drop_not_pref_orig :
    ∀ k, k < replE.length → 0 < k → ¬ (List.drop k replE) <+: origE := by decide

/-- No nonempty suffix of the tail is a prefix of the replacement. -/
theorem tail_drop_not_pref_repl :
    ∀ k, k < tail16.length → ¬ (List.drop k tail16) <+: replE := by decide

/-- No proper nonempty suffix of `req.session` is a prefix of the
replacement. -/
theorem rs_drop_not_pref_repl :
    ∀ k, k < rs11.length → 0 < k → ¬ (List.drop k rs11) <+: replE := by decide

/-- `req.session` starts the #11.2 target. -/
theorem rs_pref_orig : rs11 <+: origE := by decide

/-- `req.session` starts the #11.2 replacement. -/
theorem rs_pref_repl : rs11 <+: replE := by decide

/-- Characters copied by `pyReplace` preserve "does not start with a suffix
of the tail": if a nonempty suffix of ` || req.user?.id` prefixes the output
of Fix #11.2, it already prefixed the input.  (A replacement block cannot
start such a suffix, because no suffix of the tail is a prefix of the
replacement.) -/
theorem tailSuffix_transfer :
    ∀ n u, u.length ≤ n → ∀ k, k < tail16.length →
      (List.drop k tail16) <+: pyReplace origE replE u →
      (List.drop k tail16) <+: u := by
  intro n
  induction n with
  | zero =>
    intro u hu k hk hpref
    have hnil : u = [] := List.length_eq_zero.mp (Nat.le_zero.mp hu)
    subst hnil
    rw [pyReplace_nil] at hpref
    have : List.drop k tail16 = [] := List.eq_nil_of_prefix_nil hpref
    have hlen := congrArg List.length this
    simp only [List.length_drop, List.length_nil] at hlen
    have h16 : tail16.length = 16 := by decide
    omega
  | succ n ih =>
    intro u hu k hk hpref
    by_cases horig : origE <+: u
    · rw [pyReplace_pos _ _ _ (by decide) horig] at hpref
      have hle : (List.drop k tail16).length ≤ replE.length := by
        have h16 : tail16.length = 16 := by decide
        have h19 : replE.length = 19 := by decide
        simp only [List.length_drop]
        omega
      have hp : (List.drop k tail16) <+: replE :=
        List.prefix_of_prefix_length_le hpref (List.prefix_append _ _) hle
      exact absurd hp (tail_drop_not_pref_repl k hk)
    · cases u with
      | nil =>
        rw [pyReplace_nil] at hpref
        have : List.drop k tail16 = [] := List.eq_nil_of_prefix_nil hpref
        have hlen := congrArg List.length this
        simp only [List.length_drop, List.length_nil] at hlen
        have h16 : tail16.length = 16 := by decide
        omega
      | cons c u₁ =>
        rw [pyReplace_neg _ _ _ _ horig] at hpref
        cases hdk : List.drop k tail16 with
        | nil =>
          have hlen := congrArg List.length hdk
          simp only [List.length_drop, List.length_nil] at hlen
          omega
        | cons d t' =>
          rw [hdk, List.cons_prefix_cons] at hpref
          obtain ⟨hd, ht'⟩ := hpref
          have ht'eq : t' = List.drop (k + 1) tail16 := by
            have h1 := congrArg (List.drop 1) hdk
            simp only [List.drop_drop, List.drop_succ_cons, List.drop_nil] at h1
            simpa using h1.symm
          have hu₁ : u₁.length ≤ n := by
            simp only [List.length_cons] at hu
            omega
          subst hd
          by_cases hk1 : k + 1 < tail16.length
          · have hrec := ih u₁ hu₁ (k + 1) hk1 (ht'eq ▸ ht')
            exact List.cons_prefix_cons.mpr ⟨rfl, ht'eq ▸ hrec⟩
          · have ht'nil : t' = [] := by
              rw [ht'eq]
              exact List.drop_eq_nil_of_le (by omega)
            rw [ht'nil]
            exact List.cons_prefix_cons.mpr ⟨rfl, List.nil_prefix⟩

/-- If a nonempty suffix of `req.session` prefixes the output of Fix #11.2,
then either it prefixed the input, or it is all of `req.session` and the
output position is a replacement block, in which case the target prefixed
the input. -/
theorem rsSuffix_transfer :
    ∀ n u, u.length ≤ n → ∀ k, k < rs11.length →
      (List.drop k rs11) <+: pyReplace origE replE u →
      (List.drop k rs11) <+: u ∨ (k = 0 ∧ origE <+: u) := by
  intro n
  induction n with
  | zero =>
    intro u hu k hk hpref
    have hnil : u = [] := List.length_eq_zero.mp (Nat.le_zero.mp hu)
    subst hnil
    rw [pyReplace_nil] at hpref
    have : List.drop k rs11 = [] := List.eq_nil_of_prefix_nil hpref
    have hlen := congrArg List.length this
    simp only [List.length_drop, List.length_nil] at hlen
    have h11 : rs11.length = 11 := by decide
    omega
  | succ n ih =>
    intro u hu k hk hpref
    by_cases horig : origE <+: u
    · by_cases hk0 : k = 0
      · exact Or.inr ⟨hk0, horig⟩
      · exfalso
        rw [pyReplace_pos _ _ _ (by decide) horig] at hpref
        have hle : (List.drop k rs11).length ≤ replE.length := by
          have h11 : rs11.length = 11 := by decide
          have h19 : replE.length = 19 := by decide
          simp only [List.length_drop]
          omega
        have hp : (List.drop k rs11) <+: replE :=
          List.prefix_of_prefix_length_le hpref (List.prefix_append _ _) hle
        exact rs_drop_not_pref_repl k hk (by omega) hp
    · cases u with
      | nil =>
        rw [pyReplace_nil] at hpref
        have : List.drop k rs11 = [] := List.eq_nil_of_prefix_nil hpref
        have hlen := congrArg List.length this
        simp only [List.length_drop, List.length_nil] at hlen
        have h11 : rs11.length = 11 := by decide
        omega
      | cons c u₁ =>
        rw [pyReplace_neg _ _ _ _ horig] at hpref
        cases hdk : List.drop k rs11 with
        | nil =>
          have hlen := congrArg List.length hdk
          simp only [List.length_drop, List.length_nil] at hlen
          omega
        | cons d t' =>
          rw [hdk, List.cons_prefix_cons] at hpref
          obtain ⟨hd, ht'⟩ := hpref
          have ht'eq : t' = List.drop (k + 1) rs11 := by
            have h1 := congrArg (List.drop 1) hdk
            simp only [List.drop_drop, List.drop_succ_cons, List.drop_nil] at h1
            simpa using h1.symm
          have hu₁ : u₁.length ≤ n := by
            simp only [List.length_cons] at hu
            omega
          subst hd
          by_cases hk1 : k + 1 < rs11.length
          · have hrec := ih u₁ hu₁ (k + 1) hk1 (ht'eq ▸ ht')
            rcases hrec with hrec | ⟨habs, _⟩
            · refine Or.inl ?_
              exact List.cons_prefix_cons.mpr ⟨rfl, ht'eq ▸ hrec⟩
            · omega
          · have ht'nil : t' = [] := by
              rw [ht'eq]
              exact List.drop_eq_nil_of_le (by omega)
            refine Or.inl ?_
            rw [ht'nil]
            exact List.cons_prefix_cons.mpr ⟨rfl, List.nil_prefix⟩

/-- Fix #11.2 is clean on contents where (i) every occurrence of
`req.session` starts an occurrence of the full target expression and
(ii) no occurrence of the target is immediately followed by the tail
` || req.user?.id`: the result then contains no occurrence of the target
and exactly as many occurrences of the replacement as the input had of the
target. -/
theorem pyReplace_clean :
    ∀ n s, s.length ≤ n →
      (∀ p, p < s.length → rs11 <+: List.drop p s → origE <+: List.drop p s) →
      (∀ p, p < s.length → origE <+: List.drop p s →
        ¬ tail16 <+: List.drop (p + origE.length) s) →
      countOccs origE (pyReplace origE replE s) = 0 ∧
      countOccs replE (pyReplace origE replE s) = countOccs origE s := by
  intro n
  induction n with
  | zero =>
    intro s hs _ _
    have hnil : s = [] := List.length_eq_zero.mp (Nat.le_zero.mp hs)
    subst hnil
    exact ⟨rfl, rfl⟩
  | succ n ih =>
    intro s hs h1 h2
    by_cases horig : origE <+: s
    · have horiglen : origE.length = 35 := by decide
      have hlen35 : origE.length ≤ s.length := horig.length_le
      set s' := List.drop origE.length s with hs'
      have hs'len : s'.length ≤ n := by
        rw [hs']
        simp only [List.length_drop]
        omega
      have h1' : ∀ p, p < s'.length → rs11 <+: List.drop p s' →
          origE <+: List.drop p s' := by
        intro p hp hpref
        have hpb : p < s.length - origE.length := by
          rw [hs'] at hp
          simpa using hp
        have e1 : List.drop p s' = List.drop (origE.length + p) s := by
          rw [hs', List.drop_drop]
        rw [e1] at hpref ⊢
        exact h1 _ (by omega) hpref
      have h2' : ∀ p, p < s'.length → origE <+: List.drop p s' →
          ¬ tail16 <+: List.drop (p + origE.length) s' := by
        intro p hp hpref
        have hpb : p < s.length - origE.length := by
          rw [hs'] at hp
          simpa using hp
        have e1 : List.drop p s' = List.drop (origE.length + p) s := by
          rw [hs', List.drop_drop]
        have e2 : List.drop (p + origE.length) s' =
            List.drop (origE.length + p + origE.length) s := by
          have harith : origE.length + (p + origE.length) =
              origE.length + p + origE.length := by omega
          rw [hs', List.drop_drop, harith]
        rw [e1] at hpref
        rw [e2]
        exact h2 _ (by omega) hpref
      obtain ⟨ihA, ihB⟩ := ih s' hs'len h1' h2'
      rw [pyReplace_pos _ _ _ (by decide) horig, ← hs']
      have hside : ∀ x₂, x₂ <:+ replE → x₂ ≠ [] →
          ¬ origE <+: (x₂ ++ pyReplace origE replE s') := by
        intro x₂ hsuf hne hpref
        have hxdrop : x₂ = List.drop (replE.length - x₂.length) replE :=
          List.suffix_iff_eq_drop.mp hsuf
        have hxle : x₂.length ≤ replE.length := hsuf.length_le
        have hxpos : 0 < x₂.length := by
          cases x₂ with
          | nil => exact absurd rfl hne
          | cons a b => simp
        have hrlen : replE.length = 19 := by decide
        by_cases hfull : x₂.length = replE.length
        · have hx : x₂ = replE := by
            rw [hxdrop, show replE.length - x₂.length = 0 by omega]
            exact List.drop_zero replE
          rw [hx, orig_split, List.prefix_append_right_inj] at hpref
          have htt := tailSuffix_transfer s'.length s' le_rfl 0 (by decide)
            (by simpa using hpref)
          have h2z := h2 0 (by omega) (by simpa using horig)
          apply h2z
          have e0 : List.drop (0 + origE.length) s = s' := by
            rw [hs', Nat.zero_add]
          rw [e0]
          simpa using htt
        · have hxp : x₂ <+: origE :=
            List.prefix_of_prefix_length_le (List.prefix_append x₂ _) hpref
              (by omega)
          refine repl_drop_not_pref_orig (replE.length - x₂.length)
            (by omega) (by omega) ?_
          rw [← hxdrop]
          exact hxp
      constructor
      · rw [countOccs_append_none origE replE (pyReplace origE replE s') hside]
        exact ihA
      · rw [countOccs_self_append replE (pyReplace origE replE s')
          (by decide) repl_unbordered, ihB]
        obtain ⟨t, ht⟩ := horig
        have hts' : s' = t := by
          rw [hs', ← ht, List.drop_left]
        rw [hts', ← ht,
          countOccs_self_append origE t (by decide) orig_unbordered]
    · cases s with
      | nil => exact ⟨rfl, rfl⟩
      | cons c s₁ =>
        rw [pyReplace_neg _ _ _ _ horig]
        have h1₁ : ∀ p, p < s₁.length → rs11 <+: List.drop p s₁ →
            origE <+: List.drop p s₁ := by
          intro p hp hpref
          have e : List.drop p s₁ = List.drop (p + 1) (c :: s₁) :=
            List.drop_succ_cons.symm
          rw [e] at hpref ⊢
          exact h1 (p + 1) (by simp only [List.length_cons]; omega) hpref
        have h2₁ : ∀ p, p < s₁.length → origE <+: List.drop p s₁ →
            ¬ tail16 <+: List.drop (p + origE.length) s₁ := by
          intro p hp hpref
          have e : List.drop p s₁ = List.drop (p + 1) (c :: s₁) :=
            List.drop_succ_cons.symm
          have e2 : List.drop (p + origE.length) s₁ =
              List.drop (p + 1 + origE.length) (c :: s₁) := by
            have harith : p + 1 + origE.length = (p + origE.length) + 1 := by
              omega
            rw [harith, List.drop_succ_cons]
          rw [e] at hpref
          rw [e2]
          exact h2 (p + 1) (by simp only [List.length_cons]; omega) hpref
        obtain ⟨ihA, ihB⟩ := ih s₁
          (by simp only [List.length_cons] at hs; omega) h1₁ h2₁
        have hre : (c :: pyReplace origE replE s₁) =
            pyReplace origE replE (c :: s₁) :=
          (pyReplace_neg _ _ _ _ horig).symm
        have hnotpref : ¬ origE <+: (c :: pyReplace origE replE s₁) := by
          intro hp
          have hrs : (List.drop 0 rs11) <+: pyReplace origE replE (c :: s₁) := by
            rw [← hre]
            simpa using rs_pref_orig.trans hp
          rcases rsSuffix_transfer (c :: s₁).length (c :: s₁) le_rfl 0
            (by decide) hrs with h | ⟨_, h⟩
          · have := h1 0 (by simp) (by simpa using h)
            exact horig (by simpa using this)
          · exact horig h
        have hnotrepl : ¬ replE <+: (c :: pyReplace origE replE s₁) := by
          intro hp
          have hrs : (List.drop 0 rs11) <+: pyReplace origE replE (c :: s₁) := by
            rw [← hre]
            simpa using rs_pref_repl.trans hp
          rcases rsSuffix_transfer (c :: s₁).length (c :: s₁) le_rfl 0
            (by decide) hrs with h | ⟨_, h⟩
          · have := h1 0 (by simp) (by simpa using h)
            exact horig (by simpa using this)
          · exact horig h
        constructor
        · rw [countOccs_cons_neg _ _ _ hnotpref]
          exact ihA
        · rw [countOccs_cons_neg _ _ _ hnotrepl, ihB,
            countOccs_cons_neg _ _ _ horig]

/-- A route-file content on which the claimed postcondition of step 4.2
fails: one occurrence of the target, but replacing it glues the replacement
onto a following ` || req.user?.id`, recreating the target, and a stray
standalone `req.session?.userId` adds an extra replacement occurrence. -/
def c1cexS : String :=
  "req.session?.userId || req.user?.id || req.user?.id x req.session?.userId"

/-- Claim C1 (counterexample): it is not true that for a content with N
occurrences of `req.session?.userId || req.user?.id`, step 4.2 yields zero
occurrences of the target and N occurrences of the replacement: on
`c1cexS` (N = 1) the output still contains the target once and contains
the replacement twice. -/
theorem c1_counterexample :
    ¬ (countOccs origE (step42 c1cexS).data = 0 ∧
       countOccs replE (step42 c1cexS).data = countOccs origE c1cexS.data) := by
  decide

/-- Claim C1 (amended): for every route-file content in which every
occurrence of `req.session` begins an occurrence of the full expression
`req.session?.userId || req.user?.id`, and no occurrence of that expression
is immediately followed by ` || req.user?.id`, running step 4.2 yields a
content with zero occurrences of the original expression and exactly N
occurrences of the replacement `req.session?.userId`, where N is the number
of occurrences of the original expression in the input. -/
theorem c1_amended (s : String)
    (h1 : ∀ p, p < s.data.length → rs11 <+: List.drop p s.data →
      origE <+: List.drop p s.data)
    (h2 : ∀ p, p < s.data.length → origE <+: List.drop p s.data →
      ¬ tail16 <+: List.drop (p + origE.length) s.data) :
    countOccs origE (step42 s).data = 0 ∧
    countOccs replE (step42 s).data = countOccs origE s.data := by
  have hd : (step42 s).data = pyReplace origE replE s.data := rfl
  rw [hd]
  exact pyReplace_clean s.data.length s.data le_rfl h1 h2

/-- A content with two well-separated occurrences of the target. -/
def c1witS : String :=
  "a req.session?.userId || req.user?.id b req.session?.userId || req.user?.id c"

/-- Witness for the amended claim C1 at a concrete two-occurrence content. -/
theorem c1_amended_witness :
    countOccs origE (step42 c1witS).data = 0 ∧
    countOccs replE (step42 c1witS).data = countOccs origE c1witS.data :=
  c1_amended c1witS (by decide) (by decide)

/-- Fix #11.2 is the identity on contents without any occurrence of the
target. -/
theorem pyReplace_no_occ (pat rep : List Char) :
    ∀ s, countOccs pat s = 0 → pyReplace pat rep s = s := by
  intro s
  induction s with
  | nil => intro _; rfl
  | cons c rest ih =>
    intro h
    by_cases hp : pat <+: (c :: rest)
    · rw [countOccs_cons_pos _ _ _ hp] at h
      omega
    · rw [countOccs_cons_neg _ _ _ hp] at h
      rw [pyReplace_neg _ _ _ _ hp, ih h]

/-- Claim C6: for every route-file content containing zero occurrences of
the literal expression `req.session?.userId || req.user?.id`, running step
4.2 yields a byte-identical file content. -/
theorem c6_no_occurrence_identity (s : String)
    (h : countOccs origE s.data = 0) : step42 s = s := by
  have hd : step42 s = String.mk (pyReplace origE replE s.data) := rfl
  rw [hd, pyReplace_no_occ origE replE s.data h]

/-- Witness for claim C6 at a concrete content without the target. -/
theorem c6_witness : step42 "const id = req.session?.userId;" =
    "const id = req.session?.userId;" :=
  c6_no_occurrence_identity "const id = req.session?.userId;" (by decide)

/-! ### Lemmas about `re.sub` -/

/-- When the pattern matches nowhere, `re.sub` returns its input. -/
theorem pyReSub_no_match (m : List Char → Option (List Char × List Char))
    (s : List Char) (h : lazyFind m s = none) : pyReSub m s = s := by
  unfold pyReSub
  simp only [reSubAllF, h]

/-- The streaming substitution equals the spec-side splice of the list of
non-overlapping leftmost matches, at every fuel. -/
theorem reSubAllF_eq_spec (m : List Char → Option (List Char × List Char)) :
    ∀ fuel s,
      reSubAllF m fuel s =
        (specMatchesF m fuel s).1.foldr (fun pr acc => pr.1 ++ pr.2 ++ acc)
          (specMatchesF m fuel s).2 := by
  intro fuel
  induction fuel with
  | zero => intro s; rfl
  | succ f ih =>
    intro s
    simp only [reSubAllF, specMatchesF]
    cases hlf : lazyFind m s with
    | none => rfl
    | some pv =>
      obtain ⟨pre, rep, rest⟩ := pv
      simp only [List.foldr]
      rw [ih rest]

/-- Decomposition of a successful minimal-first search: the input splits
into the skipped prefix and a suffix accepted by the continuation. -/
theorem lazyFind_decomp (f : List Char → Option α) :
    ∀ s pre v, lazyFind f s = some (pre, v) →
      ∃ suf, s = pre ++ suf ∧ f suf = some v := by
  intro s
  induction s with
  | nil =>
    intro pre v h
    unfold lazyFind at h
    cases hf : f [] with
    | none => rw [hf] at h; cases h
    | some w =>
      rw [hf] at h
      injection h with hpair
      rw [Prod.mk.injEq] at hpair
      obtain ⟨hpre, hv⟩ := hpair
      subst hpre
      subst hv
      exact ⟨[], rfl, hf⟩
  | cons c rest ih =>
    intro pre v h
    unfold lazyFind at h
    cases hf : f (c :: rest) with
    | some w =>
      rw [hf] at h
      injection h with hpair
      rw [Prod.mk.injEq] at hpair
      obtain ⟨hpre, hv⟩ := hpair
      subst hpre
      subst hv
      exact ⟨c :: rest, rfl, hf⟩
    | none =>
      rw [hf] at h
      cases hlf : lazyFind f rest with
      | none => rw [hlf] at h; cases h
      | some pv =>
        obtain ⟨pre', v'⟩ := pv
        rw [hlf] at h
        injection h with hpair
        rw [Prod.mk.injEq] at hpair
        obtain ⟨hpre, hv⟩ := hpair
        obtain ⟨suf, hsuf, hfs⟩ := ih pre' v' hlf
        subst hpre
        refine ⟨suf, by simp [hsuf], ?_⟩
        rw [hfs, hv]

/-- `takeWs` splits its input and its first component is all whitespace. -/
theorem takeWs_spec : ∀ s : List Char,
    (takeWs s).1 ++ (takeWs s).2 = s ∧
    (∀ c ∈ (takeWs s).1, isPySpace c = true) := by
  intro s
  induction s with
  | nil => exact ⟨rfl, by intro c hc; cases hc⟩
  | cons c rest ih =>
    by_cases hc : isPySpace c = true
    · constructor
      · simp [takeWs, hc, ih.1]
      · intro d hd
        simp [takeWs, hc] at hd
        rcases hd with hd | hd
        · rw [hd]; exact hc
        · exact ih.2 d hd
    · have hcf : isPySpace c = false := Bool.eq_false_iff.mpr hc
      constructor
      · simp [takeWs, hcf]
      · intro d hd
        simp [takeWs, hcf] at hd

/-- Structure of a successful match of pattern #11.3: the input starts with
the signature literal, then a whitespace run `w` (group 1 is signature plus
`w`), then `// Build headers`, a gap `b`, the closing `});`, and the rest;
the emitted replacement is group 1 re-inserted verbatim followed by the
fixed block. -/
theorem matchP3_shape (s rep rest : List Char) (h : matchP3 s = some (rep, rest)) :
    ∃ w b, (∀ c ∈ w, isPySpace c = true) ∧
      s = (lit3a ++ w) ++ (lit3b ++ b ++ lit3c) ++ rest ∧
      rep = (lit3a ++ w) ++ block3 := by
  simp only [matchP3] at h
  by_cases h3a : lit3a.isPrefixOf s = true
  swap
  · rw [if_neg h3a] at h
    exact Option.noConfusion h
  rw [if_pos h3a] at h
  obtain ⟨t1, ht1⟩ := prefBool.mp h3a
  have ht1' : List.drop lit3a.length s = t1 := by
    rw [← ht1, List.drop_left]
  rw [ht1'] at h
  obtain ⟨hw2, hw1all⟩ := takeWs_spec t1
  by_cases h3b : lit3b.isPrefixOf (takeWs t1).2 = true
  swap
  · rw [if_neg h3b] at h
    exact Option.noConfusion h
  rw [if_pos h3b] at h
  obtain ⟨t2, ht2⟩ := prefBool.mp h3b
  have ht2' : List.drop lit3b.length (takeWs t1).2 = t2 := by
    rw [← ht2, List.drop_left]
  rw [ht2'] at h
  cases hlf : lazyFind p3End t2 with
  | none =>
    rw [hlf] at h
    exact Option.noConfusion h
  | some pv =>
    obtain ⟨b, rest'⟩ := pv
    rw [hlf] at h
    have h' : some ((lit3a ++ ((takeWs t1).1 ++ block3) : List Char), rest') =
        some (rep, rest) := h
    injection h' with hpair
    rw [Prod.mk.injEq] at hpair
    obtain ⟨hrep, hrest⟩ := hpair
    obtain ⟨suf, hsuf, hp3⟩ := lazyFind_decomp p3End t2 b rest' hlf
    unfold p3End at hp3
    by_cases h3c : lit3c.isPrefixOf suf = true
    swap
    · rw [if_neg h3c] at hp3
      exact Option.noConfusion hp3
    rw [if_pos h3c] at hp3
    injection hp3 with hrest'
    obtain ⟨t3, ht3⟩ := prefBool.mp h3c
    have ht3' : t3 = rest' := by
      rw [← hrest', ← ht3, List.drop_left]
    set w := (takeWs t1).1 with hwdef
    set s2 := (takeWs t1).2 with hs2def
    refine ⟨w, b, hw1all, ?_, ?_⟩
    · rw [← ht1, ← hw2, ← ht2, hsuf, ← ht3, ht3', hrest]
      simp [List.append_assoc]
    · rw [← hrep]
      simp [List.append_assoc]

/-! ### The script run, collapsed -/

/-- The final filesystem of a successful run: the API helper holds the
step-4.3 output, the route file holds step 4.2 applied to step 4.1's
output, and every other path is untouched. -/
def finalFS (fs : String → Option String) (c a : String) :
    String → Option String :=
  fun p =>
    if p = apiPath then some (step43 a)
    else if p = routesPath then some (step42 (step41 c))
    else fs p

/-- When both target files exist, the script runs to completion, producing
`finalFS` and the fixed stdout lines. -/
theorem runScript_eq (fs : String → Option String) (c a : String)
    (h₁ : fs routesPath = some c) (h₂ : fs apiPath = some a) :
    runScript fs = some (finalFS fs c a, scriptLines) := by
  have hne : apiPath ≠ routesPath := by decide
  unfold runScript
  rw [h₁]
  simp only [if_pos rfl, if_neg hne, h₂]
  refine congrArg (fun f => some (f, scriptLines)) ?_
  funext p
  by_cases hp : p = apiPath
  · simp [finalFS, hp, hne]
  · by_cases hr : p = routesPath
    · simp [finalFS, hp, hr, hne]
    · simp [finalFS, hp, hr]

/-! ### Claim C5: pattern-not-found is a silent no-op -/

/-- Claim C5: for every route-file content on which pattern #11.1 does not
match anywhere, step 4.1 writes the file back byte-identical, the script
raises no error (when both files exist it runs to completion), and its
fixed stdout still contains the step's success message. -/
theorem c5_silent_noop (fs : String → Option String) (c a : String)
    (h₁ : fs routesPath = some c) (h₂ : fs apiPath = some a)
    (hnm : lazyFind matchP1 c.data = none) :
    step41 c = c ∧
    runScript fs = some (finalFS fs c a, scriptLines) ∧
    "✓ Fix #11.1 complete" ∈ scriptLines := by
  refine ⟨?_, runScript_eq fs c a h₁ h₂, by simp [scriptLines]⟩
  show String.mk (pyReSub matchP1 c.data) = c
  rw [pyReSub_no_match matchP1 c.data hnm]

/-- Witness for claim C5: a content without the anchor text. -/
theorem c5_witness :
    step41 "login();" = "login();" ∧
    runScript (fun _ => some "login();") =
      some (finalFS (fun _ => some "login();") "login();" "login();",
        scriptLines) ∧
    "✓ Fix #11.1 complete" ∈ scriptLines :=
  c5_silent_noop (fun _ => some "login();") "login();" "login();" rfl rfl
    (by decide)

/-! ### Claim C4: step 4.3 replaces all non-overlapping matches -/

/-- A client-helper content containing two non-overlapping matches of
pattern #11.3. -/
def c4twoS : String :=
  "export const apiRequest = async (url: string, options: RequestInit = \x7b\x7d) => \x7b\n  // Build headers x\n  return fetch(url, \x7b\x7d);\nexport const apiRequest = async (url: string, options: RequestInit = \x7b\x7d) => \x7b\n  // Build headers x\n  return fetch(url, \x7b\x7d);"

/-- Claim C4: step 4.3's substitution carries no count bound: on every
client-helper content it equals the spec-side "replace all non-overlapping
matches" splice, and on a two-match content it differs from the
"first match only" alternative the spec contrasts it with. -/
theorem c4_replaces_all_matches :
    (∀ s : String, step43 s = ⟨specReplaceAll matchP3 s.data⟩) ∧
    pyReSub matchP3 c4twoS.data ≠ specReplaceFirst matchP3 c4twoS.data := by
  constructor
  · intro s
    exact congrArg String.mk
      (reSubAllF_eq_spec matchP3 (s.data.length + 1) s.data)
  · decide

/-! ### Claim C10: step 4.3 re-inserts group 1 verbatim -/

/-- Claim C10: every replaced span of step 4.3 starts with the captured
group 1 — the `apiRequest` signature plus its trailing whitespace — taken
verbatim from the input: whenever pattern #11.3 matches a suffix of the
content, that suffix is signature ++ whitespace ++ rewritten span ++ rest,
and the emitted replacement is exactly signature ++ whitespace ++ fixed
block. -/
theorem c10_group1_verbatim (s rep rest : List Char)
    (h : matchP3 s = some (rep, rest)) :
    ∃ w b, (∀ c ∈ w, isPySpace c = true) ∧
      s = (lit3a ++ w) ++ (lit3b ++ b ++ lit3c) ++ rest ∧
      rep = (lit3a ++ w) ++ block3 :=
  matchP3_shape s rep rest h

/-- A single-match client-helper content. -/
def c10blockS : String :=
  "export const apiRequest = async (url: string, options: RequestInit = \x7b\x7d) => \x7b\n  // Build headers x\n  return fetch(url, \x7b\x7d);"

/-- The replacement emitted for the single match of `c10blockS`. -/
def c10rep : List Char := lit3a ++ "\n  ".data ++ block3

/-- Witness for claim C10 at a concrete matching content. -/
theorem c10_witness :
    ∃ w b, (∀ c ∈ w, isPySpace c = true) ∧
      c10blockS.data = (lit3a ++ w) ++ (lit3b ++ b ++ lit3c) ++ [] ∧
      c10rep = (lit3a ++ w) ++ block3 :=
  c10_group1_verbatim c10blockS.data c10rep [] (by decide)

/-! ### Claims C7, C8, C9: the script run -/

/-- Claim C7: step 4.2 reads the route file after step 4.1 has written it,
so the final on-disk route file equals step 4.2 applied to step 4.1 applied
to the initial content. -/
theorem c7_sequential_composition (fs : String → Option String) (c a : String)
    (h₁ : fs routesPath = some c) (h₂ : fs apiPath = some a) :
    ((runScript fs).getD (fs, [])).1 routesPath = some (step42 (step41 c)) := by
  have hne : routesPath ≠ apiPath := by decide
  rw [runScript_eq fs c a h₁ h₂]
  simp [finalFS, hne]

/-- Witness for claim C7. -/
theorem c7_witness :
    ((runScript (fun _ => some "")).getD ((fun _ => some ""), [])).1
      routesPath = some (step42 (step41 "")) :=
  c7_sequential_composition (fun _ => some "") "" "" rfl rfl

/-- Claim C8: the stdout of the script is a fixed sequence independent of
the two files' contents: every run in which both files exist prints exactly
`scriptLines`, so any two such runs print the same lines. -/
theorem c8_output_fixed (fs fs' : String → Option String) (c a c' a' : String)
    (h₁ : fs routesPath = some c) (h₂ : fs apiPath = some a)
    (h₁' : fs' routesPath = some c') (h₂' : fs' apiPath = some a') :
    Option.map Prod.snd (runScript fs) = some scriptLines ∧
    Option.map Prod.snd (runScript fs) = Option.map Prod.snd (runScript fs') := by
  rw [runScript_eq fs c a h₁ h₂, runScript_eq fs' c' a' h₁' h₂']
  exact ⟨rfl, rfl⟩

/-- Witness for claim C8: two runs over different contents. -/
theorem c8_witness :
    Option.map Prod.snd (runScript (fun _ => some "x")) = some scriptLines ∧
    Option.map Prod.snd (runScript (fun _ => some "x")) =
      Option.map Prod.snd (runScript (fun _ => some "y")) :=
  c8_output_fixed (fun _ => some "x") (fun _ => some "y") "x" "x" "y" "y"
    rfl rfl rfl rfl

/-- Claim C9: the script writes only `server/routes.ts` and
`client/src/lib/api.ts`; a complete run leaves every other path's content
unchanged. -/
theorem c9_frame (fs : String → Option String) (c a : String) (p : String)
    (h₁ : fs routesPath = some c) (h₂ : fs apiPath = some a)
    (hp₁ : p ≠ routesPath) (hp₂ : p ≠ apiPath) :
    ((runScript fs).getD (fs, [])).1 p = fs p := by
  rw [runScript_eq fs c a h₁ h₂]
  simp [finalFS, hp₁, hp₂]

/-- Witness for claim C9 at a concrete unrelated path. -/
theorem c9_witness :
    ((runScript (fun _ => some "")).getD ((fun _ => some ""), [])).1
      "server/other.ts" = (fun _ => some ("" : String)) "server/other.ts" :=
  c9_frame (fun _ => some "") "" "" "server/other.ts" rfl rfl
    (by decide) (by decide)

/-! ### Claims C2 and C3: concrete behaviour of step 4.1 -/

/-- The inserted session-assignment line of Fix #11.1. -/
def insLine : List Char := "req.session.userId = user.id;".data

/-- The exact route-file content named by claim C2. -/
def c2content : String :=
  "if (!isValidPassword) \x7b return res.status(401).send(\x27invalid\x27); \x7d\n\x7d\n  // Generate JWT token"

/-- Claim C2 (counterexample): on the claim's exact content, step 4.1 is a
byte-identical no-op — the content lacks the `// Verify password` anchor
pattern #11.1 requires — so the result contains no session-assignment line
at all, let alone before `// Generate JWT token`. -/
theorem c2_counterexample :
    step41 c2content = c2content ∧
    countOccs insLine (step41 c2content).data = 0 :=
  ⟨by decide, by decide⟩

/-- Claim C2's content with the missing `// Verify password` anchor
prepended. -/
def c2amendContent : String :=
  "// Verify password\nif (!isValidPassword) \x7b return res.status(401).send(\x27invalid\x27); \x7d\n\x7d\n  // Generate JWT token"

/-- Step 4.1's output on `c2amendContent`. -/
def c2amendExpected : String :=
  "// Verify password\nif (!isValidPassword) \x7b return res.status(401).send(\x27invalid\x27); \x7d\n\x7d\n\n    // Set session userId for session-based auth\n    req.session.userId = user.id;\n\n    // Generate JWT token"

/-- Claim C2 (amended): for the route file whose content additionally
carries the `// Verify password` anchor before the guard, step 4.1 produces
exactly the expected rewrite, in which `req.session.userId = user.id;` is
separated from the following `// Generate JWT token` only by a blank line
and indentation. -/
theorem c2_amended :
    step41 c2amendContent = c2amendExpected ∧
    countOccs (insLine ++ "\n\n    ".data ++ lit1c)
      (step41 c2amendContent).data = 1 :=
  ⟨by decide, by decide⟩

/-- A content containing the exact anchor text on which a second run of
step 4.1 still finds a match (through the later `\x7d\x7d` and second
`// Generate JWT token`) and inserts the line again. -/
def c3cexContent : String :=
  "// Verify password if (!isValidPassword) \x7b x \x7d\x7d // Generate JWT token if (!isValidPassword) \x7by\x7d\x7d  // Generate JWT token"

/-- Claim C3 (counterexample): a route-file content containing the exact
verification/token-generation anchor text for which running step 4.1 twice
differs from running it once: the first run inserts the line, and the
second run matches again across the inserted text. -/
theorem c3_counterexample :
    countOccs lit1a c3cexContent.data = 1 ∧
    countOccs insLine (step41 c3cexContent).data = 1 ∧
    step41 (step41 c3cexContent) ≠ step41 c3cexContent :=
  ⟨by decide, by decide, by decide⟩

/-- A canonical single-anchor-block route-file content. -/
def c3canonical : String :=
  "// Verify password\nif (!isValidPassword) \x7b return res.status(401).send(\x27wrong\x27); \x7d\n\x7d\n  // Generate JWT token"


/-- Structure of a successful match of pattern #11.1: the input decomposes
into group 1 — `// Verify password`, the first gap `a`, the literal
`if (!isValidPassword) {`, the second gap `b`, and the closing `}` `\s*` `}`
— followed by the consumed-but-dropped whitespace run `w2`, the literal
`// Generate JWT token` and the rest; the emitted replacement is group 1,
then the inserted session-assignment text, then `// Generate JWT token`. -/
theorem matchP1_shape (s rep rest : List Char) (h : matchP1 s = some (rep, rest)) :
    ∃ a b w1 w2,
      (∀ c ∈ w1, isPySpace c = true) ∧ (∀ c ∈ w2, isPySpace c = true) ∧
      s = (lit1a ++ a ++ lit1b ++ b ++ ('\x7d' :: w1) ++ ['\x7d']) ++
        w2 ++ lit1c ++ rest ∧
      rep = (lit1a ++ a ++ lit1b ++ b ++ ('\x7d' :: w1) ++ ['\x7d']) ++
        ins1 ++ lit1c := by
  simp only [matchP1] at h
  by_cases h1a : lit1a.isPrefixOf s = true
  swap
  · rw [if_neg h1a] at h
    exact Option.noConfusion h
  rw [if_pos h1a] at h
  obtain ⟨t1, ht1⟩ := prefBool.mp h1a
  have ht1' : List.drop lit1a.length s = t1 := by
    rw [← ht1, List.drop_left]
  rw [ht1'] at h
  cases hlf : lazyFind p1AfterA t1 with
  | none =>
    rw [hlf] at h
    exact Option.noConfusion h
  | some pv =>
    obtain ⟨a, b, w1, rest'⟩ := pv
    rw [hlf] at h
    have h' : some ((rep1 (lit1a ++ a ++ lit1b ++ b ++ ('\x7d' :: w1) ++
        ['\x7d']) : List Char), rest') = some (rep, rest) := h
    injection h' with hpair
    rw [Prod.mk.injEq] at hpair
    obtain ⟨hrep, hrest⟩ := hpair
    obtain ⟨sufA, hsufA, hpA⟩ := lazyFind_decomp p1AfterA t1 a (b, w1, rest') hlf
    simp only [p1AfterA] at hpA
    by_cases h1b : lit1b.isPrefixOf sufA = true
    swap
    · rw [if_neg h1b] at hpA
      exact Option.noConfusion hpA
    rw [if_pos h1b] at hpA
    obtain ⟨t2, ht2⟩ := prefBool.mp h1b
    have ht2' : List.drop lit1b.length sufA = t2 := by
      rw [← ht2, List.drop_left]
    rw [ht2'] at hpA
    cases hlf2 : lazyFind p1AfterB t2 with
    | none =>
      rw [hlf2] at hpA
      exact Option.noConfusion hpA
    | some pv2 =>
      obtain ⟨b', w1', rest''⟩ := pv2
      rw [hlf2] at hpA
      have hpA' : some ((b' : List Char), ((w1' : List Char), (rest'' : List Char))) =
          some (b, (w1, rest')) := hpA
      injection hpA' with htr
      rw [Prod.mk.injEq, Prod.mk.injEq] at htr
      obtain ⟨hb, hw, hr⟩ := htr
      subst hb
      subst hw
      subst hr
      obtain ⟨sufB, hsufB, hpB⟩ := lazyFind_decomp p1AfterB t2 b' (w1', rest'') hlf2
      cases sufB with
      | nil =>
        simp only [p1AfterB] at hpB
        exact Option.noConfusion hpB
      | cons c q1 =>
        simp only [p1AfterB] at hpB
        by_cases hc : (c == '\x7d') = true
        swap
        · rw [if_neg hc] at hpB
          exact Option.noConfusion hpB
        rw [if_pos hc] at hpB
        have hceq : c = '\x7d' := by simpa using hc
        subst hceq
        cases hq2 : (takeWs q1).2 with
        | nil =>
          rw [hq2] at hpB
          exact Option.noConfusion hpB
        | cons d q3 =>
          rw [hq2] at hpB
          have hpB2 : (if (d == '\x7d') = true then
              (if lit1c.isPrefixOf (takeWs q3).2 = true then
                some (((takeWs q1).1 : List Char),
                  List.drop lit1c.length (takeWs q3).2)
              else none)
            else none) = some (w1', rest'') := hpB
          by_cases hd : (d == '\x7d') = true
          swap
          · rw [if_neg hd] at hpB2
            exact Option.noConfusion hpB2
          rw [if_pos hd] at hpB2
          have hdeq : d = '\x7d' := by simpa using hd
          subst hdeq
          by_cases h1c : lit1c.isPrefixOf (takeWs q3).2 = true
          swap
          · rw [if_neg h1c] at hpB2
            exact Option.noConfusion hpB2
          rw [if_pos h1c] at hpB2
          have hpB' : some (((takeWs q1).1 : List Char),
              List.drop lit1c.length (takeWs q3).2) = some (w1', rest'') := hpB2
          injection hpB' with hp3
          rw [Prod.mk.injEq] at hp3
          obtain ⟨hw1eq, hresteq⟩ := hp3
          obtain ⟨t3, ht3⟩ := prefBool.mp h1c
          have ht3' : t3 = rest'' := by
            rw [← hresteq, ← ht3, List.drop_left]
          have hq1split := (takeWs_spec q1).1
          have hq1ws := (takeWs_spec q1).2
          have hq3split := (takeWs_spec q3).1
          have hq3ws := (takeWs_spec q3).2
          set w2v := (takeWs q3).1 with hw2vdef
          set s4 := (takeWs q3).2 with hs4def
          rw [hw1eq, hq2] at hq1split
          refine ⟨a, b', w1', w2v, ?_, hq3ws, ?_, ?_⟩
          · intro x hx
            exact hq1ws x (by rw [hw1eq]; exact hx)
          · rw [← hrest, ← ht3', ← ht1, hsufA, ← ht2, hsufB, ← hq1split,
              ← hq3split, ← ht3]
            simp [List.append_assoc]
          · rw [← hrep]
            simp [rep1, List.append_assoc]

/-- Every match of pattern #11.1 consumes at least one character. -/
theorem matchP1_consumes (s rep rest : List Char)
    (h : matchP1 s = some (rep, rest)) : rest.length < s.length := by
  obtain ⟨a, b, w1, w2, _, _, hs, _⟩ := matchP1_shape s rep rest h
  have h18 : lit1a.length = 18 := by decide
  rw [hs]
  simp only [List.length_append, List.length_cons]
  omega

/-- If the matcher always consumes input, so does a successful leftmost
search. -/
theorem lazyFind_consumes (m : List Char → Option (List Char × List Char))
    (hm : ∀ s rep rest, m s = some (rep, rest) → rest.length < s.length) :
    ∀ s pre rep rest, lazyFind m s = some (pre, (rep, rest)) →
      rest.length < s.length := by
  intro s pre rep rest h
  obtain ⟨suf, hsuf, hms⟩ := lazyFind_decomp m s pre (rep, rest) h
  have h1 := hm suf rep rest hms
  have h2 : suf.length ≤ s.length := by
    rw [hsuf]
    simp only [List.length_append]
    omega
  omega

/-- The fuel of `reSubAllF` is irrelevant once it exceeds the input's
length, for a matcher that always consumes input. -/
theorem reSubAllF_congr (m : List Char → Option (List Char × List Char))
    (hm : ∀ s pre rep rest, lazyFind m s = some (pre, (rep, rest)) →
      rest.length < s.length) :
    ∀ f₁ f₂ s, s.length < f₁ → s.length < f₂ →
      reSubAllF m f₁ s = reSubAllF m f₂ s := by
  intro f₁
  induction f₁ with
  | zero =>
    intro f₂ s h₁ _
    exact absurd h₁ (Nat.not_lt_zero _)
  | succ f ih =>
    intro f₂ s h₁ h₂
    cases f₂ with
    | zero => exact absurd h₂ (Nat.not_lt_zero _)
    | succ g =>
      simp only [reSubAllF]
      cases hlf : lazyFind m s with
      | none => rfl
      | some pv =>
        obtain ⟨pre, rep, rest⟩ := pv
        have hr := hm s pre rep rest hlf
        show pre ++ rep ++ reSubAllF m f rest = pre ++ rep ++ reSubAllF m g rest
        rw [ih g rest (by omega) (by omega)]

/-- Unfolding `re.sub` at a successful leftmost match: the text before the
match, the instantiated replacement, then the substitution of the rest. -/
theorem pyReSub_match (m : List Char → Option (List Char × List Char))
    (hm : ∀ s rep rest, m s = some (rep, rest) → rest.length < s.length)
    (s pre rep rest : List Char) (h : lazyFind m s = some (pre, (rep, rest))) :
    pyReSub m s = pre ++ rep ++ pyReSub m rest := by
  have hr : rest.length < s.length := lazyFind_consumes m hm s pre rep rest h
  show reSubAllF m (s.length + 1) s = _
  simp only [reSubAllF, h]
  rw [reSubAllF_congr m (lazyFind_consumes m hm) s.length (rest.length + 1)
    rest hr (by omega)]
  rfl

/-- Claim C3 (amended): for every route-file content on which pattern #11.1
matches, one run of step 4.1 rewrites the leftmost matched span so that the
inserted session-assignment text stands between the captured verification
block and `// Generate JWT token`; and for every content whose
once-transformed result the pattern no longer matches, a second run of
step 4.1 is a no-op, so there twice equals once. -/
theorem c3_amended :
    (∀ (s : String) pre rep rest,
        lazyFind matchP1 s.data = some (pre, (rep, rest)) →
        ∃ a b w1,
          rep = (lit1a ++ a ++ lit1b ++ b ++ ('\x7d' :: w1) ++ ['\x7d']) ++
            ins1 ++ lit1c ∧
          step41 s = ⟨pre ++ rep ++ pyReSub matchP1 rest⟩) ∧
    (∀ s : String, lazyFind matchP1 (step41 s).data = none →
        step41 (step41 s) = step41 s) := by
  constructor
  · intro s pre rep rest h
    obtain ⟨suf, _, hms⟩ := lazyFind_decomp matchP1 s.data pre (rep, rest) h
    obtain ⟨a, b, w1, w2, _, _, _, hrep⟩ := matchP1_shape suf rep rest hms
    refine ⟨a, b, w1, hrep, ?_⟩
    show String.mk (pyReSub matchP1 s.data) = _
    rw [pyReSub_match matchP1 matchP1_consumes s.data pre rep rest h]
  · intro s hnone
    show String.mk (pyReSub matchP1 (step41 s).data) = step41 s
    rw [pyReSub_no_match matchP1 (step41 s).data hnone]

/-- The replacement emitted for the single match of `c3canonical`. -/
def c3rep0 : List Char :=
  "// Verify password\nif (!isValidPassword) \x7b return res.status(401).send(\x27wrong\x27); \x7d\n\x7d".data ++
    ins1 ++ lit1c

/-- Witness for the amended claim C3 at the canonical single-block content:
its pattern match starts at the very beginning, the replacement carries the
inserted text between the captured block and the token-generation anchor,
and — since the pattern no longer matches the once-transformed content —
the second run is a no-op there. -/
theorem c3_amended_witness :
    (∃ a b w1,
      c3rep0 = (lit1a ++ a ++ lit1b ++ b ++ ('\x7d' :: w1) ++ ['\x7d']) ++
        ins1 ++ lit1c ∧
      step41 c3canonical = ⟨[] ++ c3rep0 ++ pyReSub matchP1 []⟩) ∧
    step41 (step41 c3canonical) = step41 c3canonical :=
  ⟨c3_amended.1 c3canonical [] c3rep0 [] (by decide),
   c3_amended.2 c3canonical (by decide)⟩
